import Mathlib

/-!
Verification of the batched stock screener of `Project_Stock`.

The subject is the screening loop `screen_hk_stocks_batched` of `main.py`
(chunking of the ticker list, retry-with-cooldown around the batch price
download, per-symbol window extraction, the technical filter, the secondary
`check_fundamentals` P/E check, and KeyboardInterrupt handling), together
with the `check_fundamentals` variant of `test.py`.

Modelling conventions:
* A ticker is a string.  A daily bar carries the Close/High/Low floats of
  one row of the downloaded price table (as rationals) plus the `YearMonth`
  period key of its date-index (as a natural, e.g. 202310).
* The result of one `yf.download` call for a chunk is a `Frame`:
  `empty` models `data.empty`; `frames` maps each symbol present in
  `data.columns.levels[0]` to that symbol's rows after `dropna()`; `whole`
  is `data.dropna()`, the shape used when the chunk has a single ticker.
* A provider is a function; an attempt that raises is `FetchResult.err`.
  `yf.Ticker(symbol).info` is modelled by `FundResult`: `err` for a raised
  exception, otherwise the optional `trailingPE` value.
* `time.sleep` has no influence on the returned data, so sleeps are
  recorded in an explicit event trace next to the accumulated records.
* Python's `round(x, 2)` is rounding to two decimals; `round2` uses
  Mathlib's `round` (ties away from the half in a fixed direction, where
  CPython uses bankers' rounding on binary floats — no claim below depends
  on tie behaviour).
-/

abbrev Ticker := String

/-- One daily price bar (one row of the downloaded table, after `dropna`). -/
structure Bar where
  close : ℚ
  high : ℚ
  low : ℚ
  yearMonth : Nat
deriving DecidableEq

/-- The table returned by one successful `yf.download` call for a chunk. -/
structure Frame where
  empty : Bool
  frames : List (Ticker × List Bar)
  whole : List Bar
deriving DecidableEq

/-- Outcome of one `yf.download` attempt: a raised exception or a table. -/
inductive FetchResult where
  | err
  | ok (data : Frame)
deriving DecidableEq

/-- Outcome of `yf.Ticker(symbol).info`: a raised exception or the optional
`trailingPE` entry of the info dictionary. -/
inductive FundResult where
  | err
  | ok (trailingPE : Option ℚ)
deriving DecidableEq

/-- One row of the accumulated `results` list of `screen_hk_stocks_batched`
(`main.py` lines 138-156): the fixed fields plus the per-month Max/High and
Min/Low breakdown keyed by `YearMonth`. -/
structure MatchRecord where
  ticker : Ticker
  currentPrice : ℚ
  maxPrice1mo : ℚ
  minPrice1mo : ℚ
  changePct1mo : ℚ
  peRatio : Option ℚ
  hasOptions : String
  monthly : List (Nat × ℚ × ℚ)
deriving DecidableEq

/-- Observable timing events of a run: one `yf.download` call (tagged with
the value of the `retries` counter) or a `time.sleep(secs)`. -/
inductive Event where
  | fetchAttempt (attempt : Nat)
  | sleep (secs : Nat)
deriving DecidableEq

/-- Python `round(x, 2)`. -/
def round2 (q : ℚ) : ℚ := (round (q * 100) : ℚ) / 100

/-- `stock_data['Close'].iloc[0]` (default 0 is never reached: callers guard
against the empty window first). -/
def firstClose (bars : List Bar) : ℚ := ((bars.head?).map Bar.close).getD 0

/-- `stock_data['Close'].iloc[-1]`. -/
def lastClose (bars : List Bar) : ℚ := ((bars.getLast?).map Bar.close).getD 0

/-- `stock_data['High'].max()`. -/
def maxHigh : List Bar → ℚ
  | [] => 0
  | b :: bs => (bs.map Bar.high).foldl max b.high

/-- `stock_data['Low'].min()`. -/
def minLow : List Bar → ℚ
  | [] => 0
  | b :: bs => (bs.map Bar.low).foldl min b.low

/-- Insert into a descending list, keeping it descending. -/
def insertDesc (k : Nat) : List Nat → List Nat
  | [] => [k]
  | x :: xs => if x ≤ k then k :: x :: xs else x :: insertDesc k xs

/-- Sort a list of period keys in descending order (the effect of pandas
`groupby` followed by `sort_index(ascending=False)` on the group keys). -/
def sortDesc (l : List Nat) : List Nat := l.foldr insertDesc []

/-- `main.py` lines 128-156: group the window by `YearMonth`, aggregate max
High and min Low per month, newest month first, and keep at most 7 months
(the loop breaks once `count > 7`). -/
def monthlyStats (bars : List Bar) : List (Nat × ℚ × ℚ) :=
  let keys := sortDesc (bars.map (fun b => b.yearMonth)).dedup
  (keys.map (fun k =>
    let mb := bars.filter (fun b => b.yearMonth == k)
    (k, round2 (maxHigh mb), round2 (minLow mb)))).take 7

/-- `check_fundamentals` of `main.py` (lines 45-69): any exception yields
`(False, None)`; otherwise the verdict is `pe_ratio and 15 <= pe_ratio <= 50`
(Python truthiness: `None` and `0.0` are falsy), returning the P/E rounded
to two decimals on success. -/
def check_fundamentals (fund : Ticker → FundResult) (symbol : Ticker) :
    Bool × Option ℚ :=
  match fund symbol with
  | FundResult.err => (false, none)
  | FundResult.ok none => (false, none)
  | FundResult.ok (some pe_ratio) =>
    if pe_ratio ≠ 0 ∧ 15 ≤ pe_ratio ∧ pe_ratio ≤ 50 then
      (true, some (round2 pe_ratio))
    else (false, none)

/-- `test.py`'s per-symbol ticker object: `len(ticker.options)` and the
optional `trailingPE` of `ticker.info`; `none` at the outer level models an
exception raised inside the `try`. -/
structure TickerInfo where
  optionsCount : Nat
  trailingPE : Option ℚ
deriving DecidableEq

/-- `check_fundamentals` of `test.py` (lines 36-57): fail on zero listed
options, then require `pe_min <= trailingPE <= pe_max`; exceptions yield
`(False, None)`. -/
def TestScan.check_fundamentals (fund : Ticker → Option TickerInfo)
    (symbol : Ticker) (pe_min pe_max : ℚ) : Bool × Option ℚ :=
  match fund symbol with
  | none => (false, none)
  | some info =>
    if info.optionsCount = 0 then (false, none)
    else
      match info.trailingPE with
      | none => (false, none)
      | some pe_ttm =>
        if pe_min ≤ pe_ttm ∧ pe_ttm ≤ pe_max then (true, some (round2 pe_ttm))
        else (false, none)

/-- `main.py` lines 102-107: for a single-ticker chunk the whole table is the
symbol's data; otherwise the symbol must appear among the column groups, and
its sub-table is taken (`continue`, i.e. `none`, when absent). -/
def extractWindow (chunkLen : Nat) (data : Frame) (symbol : Ticker) :
    Option (List Bar) :=
  if chunkLen == 1 then some data.whole
  else
    match data.frames.lookup symbol with
    | none => none
    | some bars => some bars

/-- The technical criteria of `main.py` line 123:
`max_price > 10 and 15 <= abs(pct_change) <= 25`. -/
def passes_criteria (max_price pct_change : ℚ) : Bool :=
  decide (10 < max_price) && decide (15 ≤ |pct_change|) &&
    decide (|pct_change| ≤ 25)

/-- The body of the per-symbol loop of `main.py` lines 100-158: extract the
symbol's window, skip (`none`) when it is empty or shorter than 5 bars,
compute the metrics, apply the technical criteria, run `check_fundamentals`,
and build the result row when both pass. -/
def processSymbol (fund : Ticker → FundResult) (chunkLen : Nat) (data : Frame)
    (symbol : Ticker) : Option MatchRecord :=
  match extractWindow chunkLen data symbol with
  | none => none
  | some stock_data =>
    if stock_data.isEmpty || stock_data.length < 5 then none
    else
      let start_price := firstClose stock_data
      let end_price := lastClose stock_data
      let max_price := maxHigh stock_data
      let min_price := minLow stock_data
      let pct_change := ((end_price - start_price) / start_price) * 100
      if passes_criteria max_price pct_change then
        match check_fundamentals fund symbol with
        | (true, pe_val) =>
          some
            { ticker := symbol
              currentPrice := round2 end_price
              maxPrice1mo := round2 max_price
              minPrice1mo := round2 min_price
              changePct1mo := pct_change
              peRatio := pe_val
              hasOptions := "Yes"
              monthly := monthlyStats stock_data }
        | (false, _) => none
      else none

/-- `main.py` line 76:
`chunks = [tickers[i:i + batch_size] for i in range(0, len(tickers), batch_size)]`
(`l.take b` after `l.drop i` is the slice `l[i:i+b]`; the guard mirrors that
Python `range` rejects step 0, a case no caller exercises). -/
def chunksOf (b : Nat) : List α → List (List α)
  | [] => []
  | x :: xs =>
    if _hb : b = 0 then []
    else (x :: xs).take b :: chunksOf b ((x :: xs).drop b)
termination_by l => l.length
decreasing_by simp [List.length_drop]; omega

/-- The retry loop of `main.py` lines 83-169:
`while not success and retries < max_retries`, one `yf.download` per
iteration; an exception or an empty table increments `retries` and sleeps 5
seconds; a non-empty table processes every symbol of the chunk.  Returns the
rows appended for this chunk together with the event trace. -/
def runAttempts (fund : Ticker → FundResult) (f : Nat → FetchResult)
    (chunk : List Ticker) (retries max_retries : Nat) :
    List MatchRecord × List Event :=
  if _h : retries < max_retries then
    match f retries with
    | FetchResult.err =>
      let rest := runAttempts fund f chunk (retries + 1) max_retries
      (rest.1, Event.fetchAttempt retries :: Event.sleep 5 :: rest.2)
    | FetchResult.ok data =>
      if data.empty then
        let rest := runAttempts fund f chunk (retries + 1) max_retries
        (rest.1, Event.fetchAttempt retries :: Event.sleep 5 :: rest.2)
      else
        (chunk.filterMap (processSymbol fund chunk.length data),
          [Event.fetchAttempt retries])
  else ([], [])
termination_by max_retries - retries
decreasing_by all_goals omega

/-- The chunk loop of `main.py` lines 80-173, wrapped in
`try ... except KeyboardInterrupt` (lines 79, 175-178): `cancel i` models a
KeyboardInterrupt arriving at the boundary of iteration `i` (cancellation is
cooperative at chunk boundaries — spec section 5); on interrupt the
accumulated records are returned.  Between chunks (except after the last)
the loop sleeps 2 seconds. -/
def chunkLoop (fund : Ticker → FundResult) (fetch : Nat → Nat → FetchResult)
    (cancel : Nat → Bool) (numChunks : Nat) :
    Nat → List (List Ticker) → List MatchRecord × List Event
  | _, [] => ([], [])
  | i, chunk :: rest =>
    if cancel i then ([], [])
    else
      let cur := runAttempts fund (fetch i) chunk 0 2
      let cooldown : List Event :=
        if i < numChunks - 1 then [Event.sleep 2] else []
      let later := chunkLoop fund fetch cancel numChunks (i + 1) rest
      (cur.1 ++ later.1, cur.2 ++ cooldown ++ later.2)

/-- `screen_hk_stocks_batched` with an explicit cancellation signal:
records and event trace. -/
def screenCancel (fund : Ticker → FundResult) (fetch : Nat → Nat → FetchResult)
    (tickers : List Ticker) (batch_size : Nat) (cancel : Nat → Bool) :
    List MatchRecord × List Event :=
  let chunks := chunksOf batch_size tickers
  chunkLoop fund fetch cancel chunks.length 0 chunks

/-- `screen_hk_stocks_batched(tickers, batch_size)` of `main.py` lines
71-178 (no interrupt): the returned `results` list.  `fetch i a` is what the
`yf.download` call for chunk `i` does on attempt `a`; `fund` is the
fundamentals provider used by `check_fundamentals`. -/
def screen_hk_stocks_batched (fund : Ticker → FundResult)
    (fetch : Nat → Nat → FetchResult) (tickers : List Ticker)
    (batch_size : Nat) : List MatchRecord :=
  (screenCancel fund fetch tickers batch_size (fun _ => false)).1

/-- Records contributed by the chunk at index `i` (the rows `runAttempts`
appends for it). -/
def chunkRecords (fund : Ticker → FundResult) (fetch : Nat → Nat → FetchResult)
    (i : Nat) (chunk : List Ticker) : List MatchRecord :=
  (runAttempts fund (fetch i) chunk 0 2).1

/-- Event trace of the chunk at index `i` (attempts and retry sleeps). -/
def chunkEvents (fund : Ticker → FundResult) (fetch : Nat → Nat → FetchResult)
    (i : Nat) (chunk : List Ticker) : List Event :=
  (runAttempts fund (fetch i) chunk 0 2).2

/-- Concatenation of the records of a list of chunks starting at index `i`,
each chunk processed independently by its own retry loop. -/
def recordsOfChunks (fund : Ticker → FundResult)
    (fetch : Nat → Nat → FetchResult) : Nat → List (List Ticker) →
    List MatchRecord
  | _, [] => []
  | i, c :: cs =>
    chunkRecords fund fetch i c ++ recordsOfChunks fund fetch (i + 1) cs

/-- A `yf.download` attempt that the retry loop counts as failed: a raised
exception or a table with `data.empty` true. -/
def attemptFails : FetchResult → Prop
  | FetchResult.err => True
  | FetchResult.ok data => data.empty = true

/-- Modelled from the spec (sections 3-4): the optional independent
thresholds of a `ScreeningCriteria`; `none` means the threshold is absent. -/
structure ScreeningCriteria where
  price_floor : Option ℚ
  abs_change_min : Option ℚ
  abs_change_max : Option ℚ
  drawdown_min : Option ℚ

/-- Modelled from the spec (section 4.1 step 5): the criteria hold exactly
when every configured threshold holds, an absent threshold being always
satisfied. -/
def criteriaSatisfied (c : ScreeningCriteria)
    (max_price pct_change drawdown : ℚ) : Prop :=
  (∀ f ∈ c.price_floor, f < max_price) ∧
  (∀ lo ∈ c.abs_change_min, lo ≤ |pct_change|) ∧
  (∀ hi ∈ c.abs_change_max, |pct_change| ≤ hi) ∧
  (∀ d ∈ c.drawdown_min, drawdown ≤ d)

/-- The criteria configured in `main.py` line 123: price floor 10 on the
window maximum, absolute change between 15 and 25, no drawdown threshold. -/
def mainCriteria : ScreeningCriteria :=
  { price_floor := some 10
    abs_change_min := some 15
    abs_change_max := some 25
    drawdown_min := none }

/-! ## Lemmas about the chunk partition -/

theorem chunksOf_nil (b : Nat) : chunksOf b ([] : List α) = [] := by
  simp [chunksOf]

theorem chunksOf_cons (b : Nat) (hb : b ≠ 0) (x : α) (xs : List α) :
    chunksOf b (x :: xs) =
      (x :: xs).take b :: chunksOf b ((x :: xs).drop b) := by
  rw [chunksOf]
  simp [hb]

theorem chunksOf_flatten (b : Nat) (hb : 1 ≤ b) (l : List α) :
    (chunksOf b l).flatten = l := by
  induction l using chunksOf.induct b with
  | case1 => simp [chunksOf]
  | case2 x xs h => omega
  | case3 x xs h ih =>
    rw [chunksOf_cons b h]
    simp only [List.flatten_cons, ih, List.take_append_drop]

theorem chunksOf_length (b : Nat) (hb : 1 ≤ b) (l : List α) :
    (chunksOf b l).length = (l.length + b - 1) / b := by
  induction l using chunksOf.induct b with
  | case1 =>
    simp only [chunksOf, List.length_nil]
    symm
    apply Nat.div_eq_of_lt
    omega
  | case2 x xs h => omega
  | case3 x xs h ih =>
    rw [chunksOf_cons b h]
    simp only [List.length_cons, ih, List.length_drop]
    have hsplit : xs.length + 1 + b - 1 = (xs.length + 1 - 1) + b := by omega
    rw [hsplit, Nat.add_div_right _ (by omega)]
    congr 1
    rcases le_or_lt b (xs.length + 1) with hle | hlt
    · congr 1
      omega
    · rw [Nat.sub_eq_zero_of_le (Nat.le_of_lt hlt)]
      rw [Nat.div_eq_of_lt (by omega), Nat.div_eq_of_lt (by omega)]

theorem chunksOf_eq_nil_iff (b : Nat) (hb : 1 ≤ b) (l : List α) :
    chunksOf b l = [] ↔ l = [] := by
  cases l with
  | nil => simp [chunksOf]
  | cons x xs =>
    rw [chunksOf_cons b (by omega)]
    simp

theorem chunksOf_dropLast_length (b : Nat) (hb : 1 ≤ b) (l : List α) :
    ∀ c ∈ (chunksOf b l).dropLast, c.length = b := by
  induction l using chunksOf.induct b with
  | case1 => simp [chunksOf]
  | case2 x xs h => omega
  | case3 x xs h ih =>
    rw [chunksOf_cons b h]
    intro c hc
    by_cases hr : chunksOf b ((x :: xs).drop b) = []
    · rw [hr] at hc
      simp at hc
    · rw [List.dropLast_cons_of_ne_nil hr] at hc
      rcases List.mem_cons.mp hc with rfl | hc
      · have hdrop : (x :: xs).drop b ≠ [] :=
          fun hnil => hr (by rw [hnil, chunksOf_nil])
        have hlen : b < (x :: xs).length := by
          rcases le_or_lt (x :: xs).length b with hle | hlt
          · exact absurd (List.drop_eq_nil_iff.mpr hle) hdrop
          · exact hlt
        simp only [List.length_take, List.length_cons] at hlen ⊢
        omega
      · exact ih c hc

theorem chunksOf_mem_length (b : Nat) (hb : 1 ≤ b) (l : List α) :
    ∀ c ∈ chunksOf b l, c.length ≤ b ∧ c ≠ [] := by
  induction l using chunksOf.induct b with
  | case1 => simp [chunksOf]
  | case2 x xs h => omega
  | case3 x xs h ih =>
    rw [chunksOf_cons b h]
    intro c hc
    rcases List.mem_cons.mp hc with rfl | hc
    · refine ⟨by simp only [List.length_take]; omega, ?_⟩
      cases b with
      | zero => omega
      | succ n => simp
    · exact ih c hc

/-- C2: for every ticker list of length `n` and every `batch_size` `b ≥ 1`,
`main.py` line 76 partitions the list into exactly `⌈n/b⌉ = (n + b - 1) / b`
contiguous chunks whose concatenation in order is the original list; every
chunk before the last has length exactly `b`, and every chunk has length at
most `b` (so the last may be smaller) and is non-empty. -/
theorem chunks_partition (b : Nat) (hb : 1 ≤ b) (l : List α) :
    (chunksOf b l).length = (l.length + b - 1) / b ∧
    (chunksOf b l).flatten = l ∧
    (∀ c ∈ (chunksOf b l).dropLast, c.length = b) ∧
    (∀ c ∈ chunksOf b l, c.length ≤ b ∧ c ≠ []) :=
  ⟨chunksOf_length b hb l, chunksOf_flatten b hb l,
    chunksOf_dropLast_length b hb l, chunksOf_mem_length b hb l⟩

/-- Witness for C2 at `b = 2` and a five-element ticker list: `1 ≤ 2` holds,
and there are `⌈5/2⌉ = 3` chunks `[[t1,t2],[t3,t4],[t5]]` flattening back to
the list. -/
theorem chunks_partition_witness :
    1 ≤ 2 ∧
    ((chunksOf 2 ["0001.HK", "0002.HK", "0003.HK", "0004.HK", "0005.HK"]).length
        = (5 + 2 - 1) / 2 ∧
      (chunksOf 2 ["0001.HK", "0002.HK", "0003.HK", "0004.HK", "0005.HK"]).flatten
        = ["0001.HK", "0002.HK", "0003.HK", "0004.HK", "0005.HK"] ∧
      (∀ c ∈ (chunksOf 2
          ["0001.HK", "0002.HK", "0003.HK", "0004.HK", "0005.HK"]).dropLast,
        c.length = 2) ∧
      (∀ c ∈ chunksOf 2 ["0001.HK", "0002.HK", "0003.HK", "0004.HK", "0005.HK"],
        c.length ≤ 2 ∧ c ≠ [])) :=
  ⟨by norm_num,
    chunks_partition 2 (by norm_num)
      ["0001.HK", "0002.HK", "0003.HK", "0004.HK", "0005.HK"]⟩

/-! ## Lemmas about two-decimal rounding -/

theorem round2_le_bounds {q : ℚ} (h1 : 15 ≤ q) (h2 : q ≤ 50) :
    15 ≤ round2 q ∧ round2 q ≤ 50 := by
  have hlow : (1500 : ℤ) ≤ round (q * 100) := by
    rw [round_eq]
    apply Int.le_floor.mpr
    push_cast
    linarith
  have hhigh : round (q * 100) ≤ 5000 := by
    rw [round_eq]
    have : ⌊q * 100 + 1 / 2⌋ < 5001 := by
      apply Int.floor_lt.mpr
      push_cast
      linarith
    omega
  have hlow' : (1500 : ℚ) ≤ (round (q * 100) : ℚ) := by exact_mod_cast hlow
  have hhigh' : ((round (q * 100) : ℤ) : ℚ) ≤ 5000 := by exact_mod_cast hhigh
  unfold round2
  constructor <;> [linarith; linarith]

theorem round2_idem (q : ℚ) : round2 (round2 q) = round2 q := by
  unfold round2
  rw [div_mul_cancel₀ _ (by norm_num : (100 : ℚ) ≠ 0), round_intCast]

theorem round2_intCast (n : ℤ) : round2 (n : ℚ) = n := by
  unfold round2
  rw [show ((n : ℚ) * 100) = ((n * 100 : ℤ) : ℚ) by push_cast; ring,
    round_intCast]
  push_cast
  field_simp

/-! ## Step lemmas for the retry loop -/

theorem runAttempts_done (fund : Ticker → FundResult) (f : Nat → FetchResult)
    (chunk : List Ticker) (retries max_retries : Nat)
    (h : ¬ retries < max_retries) :
    runAttempts fund f chunk retries max_retries = ([], []) := by
  rw [runAttempts]
  simp [h]

theorem runAttempts_fail_step (fund : Ticker → FundResult)
    (f : Nat → FetchResult) (chunk : List Ticker) (retries max_retries : Nat)
    (h : retries < max_retries) (hf : attemptFails (f retries)) :
    runAttempts fund f chunk retries max_retries =
      ((runAttempts fund f chunk (retries + 1) max_retries).1,
        Event.fetchAttempt retries :: Event.sleep 5 ::
          (runAttempts fund f chunk (retries + 1) max_retries).2) := by
  rw [runAttempts]
  rw [dif_pos h]
  cases hfr : f retries with
  | err => rfl
  | ok data =>
    unfold attemptFails at hf
    rw [hfr] at hf
    simp [hf]

theorem runAttempts_success (fund : Ticker → FundResult)
    (f : Nat → FetchResult) (chunk : List Ticker) (retries max_retries : Nat)
    (data : Frame) (h : retries < max_retries)
    (hfr : f retries = FetchResult.ok data) (hne : data.empty = false) :
    runAttempts fund f chunk retries max_retries =
      (chunk.filterMap (processSymbol fund chunk.length data),
        [Event.fetchAttempt retries]) := by
  rw [runAttempts]
  rw [dif_pos h, hfr]
  simp [hne]

theorem runAttempts_exhausted (fund : Ticker → FundResult)
    (f : Nat → FetchResult) (chunk : List Ticker)
    (hfail : ∀ a, attemptFails (f a)) :
    runAttempts fund f chunk 0 2 =
      ([], [Event.fetchAttempt 0, Event.sleep 5,
        Event.fetchAttempt 1, Event.sleep 5]) := by
  rw [runAttempts_fail_step fund f chunk 0 2 (by omega) (hfail 0),
    runAttempts_fail_step fund f chunk 1 2 (by omega) (hfail 1),
    runAttempts_done fund f chunk 2 2 (by omega)]

theorem chunkLoop_no_cancel (fund : Ticker → FundResult)
    (fetch : Nat → Nat → FetchResult) (numChunks : Nat) :
    ∀ (cs : List (List Ticker)) (i : Nat),
      (chunkLoop fund fetch (fun _ => false) numChunks i cs).1 =
        recordsOfChunks fund fetch i cs := by
  intro cs
  induction cs with
  | nil => intro i; rfl
  | cons c cs ih =>
    intro i
    simp [chunkLoop, recordsOfChunks, chunkRecords, ih]

/-- C1: for every chunk index `i` whose batch fetch fails or comes back
empty on every attempt, the retry loop of `main.py` lines 83-169 makes
exactly 2 attempts (`max_retries = 2`) with a 5-second cooldown after each
failure, the chunk is abandoned with zero `MatchRecord`s and no exception,
and the run is the independent concatenation of all chunks' records, so
processing proceeds to the next chunk. -/
theorem retry_ceiling_abandons_chunk (fund : Ticker → FundResult)
    (fetch : Nat → Nat → FetchResult) (i : Nat)
    (hfail : ∀ a, attemptFails (fetch i a)) :
    (∀ chunk, chunkRecords fund fetch i chunk = [] ∧
      chunkEvents fund fetch i chunk =
        [Event.fetchAttempt 0, Event.sleep 5,
          Event.fetchAttempt 1, Event.sleep 5]) ∧
    (∀ (tickers : List Ticker) (batch_size : Nat),
      screen_hk_stocks_batched fund fetch tickers batch_size =
        recordsOfChunks fund fetch 0 (chunksOf batch_size tickers)) := by
  constructor
  · intro chunk
    have h := runAttempts_exhausted fund (fetch i) chunk hfail
    unfold chunkRecords chunkEvents
    rw [h]
    exact ⟨rfl, rfl⟩
  · intro tickers batch_size
    unfold screen_hk_stocks_batched screenCancel
    exact chunkLoop_no_cancel fund fetch _ _ 0

/-- Witness for C1: a provider that raises on every attempt satisfies the
failure hypothesis, and on tickers `[t1, t2, t3]` with batch size 2 the
first chunk yields no records, shows the two-attempt trace, and the full
run still decomposes over both chunks. -/
theorem retry_ceiling_abandons_chunk_witness :
    (∀ a, attemptFails ((fun (_ _ : Nat) => FetchResult.err) 0 a)) ∧
    (chunkRecords (fun _ => FundResult.err) (fun _ _ => FetchResult.err) 0
        ["0001.HK", "0002.HK"] = [] ∧
      chunkEvents (fun _ => FundResult.err) (fun _ _ => FetchResult.err) 0
        ["0001.HK", "0002.HK"] =
        [Event.fetchAttempt 0, Event.sleep 5,
          Event.fetchAttempt 1, Event.sleep 5]) ∧
    screen_hk_stocks_batched (fun _ => FundResult.err)
        (fun _ _ => FetchResult.err) ["0001.HK", "0002.HK", "0003.HK"] 2 =
      recordsOfChunks (fun _ => FundResult.err) (fun _ _ => FetchResult.err) 0
        (chunksOf 2 ["0001.HK", "0002.HK", "0003.HK"]) := by
  have h := retry_ceiling_abandons_chunk (fun _ => FundResult.err)
    (fun _ _ => FetchResult.err) 0 (fun a => trivial)
  exact ⟨fun a => trivial, h.1 ["0001.HK", "0002.HK"],
    h.2 ["0001.HK", "0002.HK", "0003.HK"] 2⟩

/-! ## Cancellation at a chunk boundary -/

theorem chunkLoop_cancel_take (fund : Ticker → FundResult)
    (fetch : Nat → Nat → FetchResult) (cancel : Nat → Bool)
    (numChunks m : Nat) (hm : cancel m = true) :
    ∀ (cs : List (List Ticker)) (i : Nat), i ≤ m →
      (∀ j, i ≤ j → j < m → cancel j = false) →
      (chunkLoop fund fetch cancel numChunks i cs).1 =
        recordsOfChunks fund fetch i (cs.take (m - i)) := by
  intro cs
  induction cs with
  | nil =>
    intro i _ _
    simp [chunkLoop, recordsOfChunks]
  | cons c cs ih =>
    intro i hi hfalse
    by_cases hci : cancel i = true
    · have hieq : i = m := by
        by_contra hne
        have hlt : i < m := lt_of_le_of_ne hi hne
        rw [hfalse i le_rfl hlt] at hci
        exact Bool.noConfusion hci
      subst hieq
      simp [chunkLoop, hci, recordsOfChunks]
    · have hne : i ≠ m := by
        intro heq
        rw [heq, hm] at hci
        exact hci rfl
      have hlt : i < m := lt_of_le_of_ne hi hne
      have hstep : m - i = (m - (i + 1)) + 1 := by omega
      rw [hstep, List.take_succ_cons]
      have hcifalse : cancel i = false := by
        cases hcv : cancel i with
        | false => rfl
        | true => exact absurd hcv hci
      simp only [chunkLoop, hcifalse, Bool.false_eq_true, if_false,
        recordsOfChunks, chunkRecords]
      rw [ih (i + 1) (by omega) (fun j hj1 hj2 => hfalse j (by omega) hj2)]

/-- C7: a cancellation signal (KeyboardInterrupt, `main.py` lines 79 and
175-178, cooperative at chunk boundaries) that first fires at the boundary
of chunk `m` makes the run return exactly the records accumulated from the
fully-processed chunks before `m` — the records of `(chunksOf b tickers).take m`
— and none from chunk `m` or any later chunk. -/
theorem cancellation_returns_done_chunks (fund : Ticker → FundResult)
    (fetch : Nat → Nat → FetchResult) (tickers : List Ticker)
    (batch_size : Nat) (cancel : Nat → Bool) (m : Nat)
    (hbefore : ∀ j < m, cancel j = false) (hm : cancel m = true) :
    (screenCancel fund fetch tickers batch_size cancel).1 =
      recordsOfChunks fund fetch 0 ((chunksOf batch_size tickers).take m) := by
  unfold screenCancel
  rw [chunkLoop_cancel_take fund fetch cancel _ m hm _ 0 (Nat.zero_le m)
    (fun j _ hj => hbefore j hj)]
  simp

/-- Witness for C7: interrupting before chunk 1 of a two-chunk run (batch
size 1) returns exactly the records of the first chunk. -/
theorem cancellation_returns_done_chunks_witness :
    (∀ j < 1, (fun i => decide (1 ≤ i)) j = false) ∧
    ((fun i => decide (1 ≤ i)) 1 = true) ∧
    (screenCancel (fun _ => FundResult.err) (fun _ _ => FetchResult.err)
        ["0001.HK", "0002.HK"] 1 (fun i => decide (1 ≤ i))).1 =
      recordsOfChunks (fun _ => FundResult.err) (fun _ _ => FetchResult.err) 0
        ((chunksOf 1 ["0001.HK", "0002.HK"]).take 1) :=
  ⟨by decide, by decide,
    cancellation_returns_done_chunks (fun _ => FundResult.err)
      (fun _ _ => FetchResult.err) ["0001.HK", "0002.HK"] 1
      (fun i => decide (1 ≤ i)) 1 (by decide) (by decide)⟩

/-! ## Retry transparency and determinism -/

theorem runAttempts_eventual_success (fund : Ticker → FundResult)
    (f : Nat → FetchResult) (chunk : List Ticker) (data : Frame)
    (hne : data.empty = false) :
    ∀ (d r k m : Nat), k = r + d → k < m →
      (∀ a, r ≤ a → a < k → attemptFails (f a)) →
      f k = FetchResult.ok data →
      (runAttempts fund f chunk r m).1 =
        chunk.filterMap (processSymbol fund chunk.length data) := by
  intro d
  induction d with
  | zero =>
    intro r k m hk hkm hfail hsucc
    have hr : r = k := by omega
    subst hr
    rw [runAttempts_success fund f chunk _ _ data (by omega) hsucc hne]
  | succ d ih =>
    intro r k m hk hkm hfail hsucc
    rw [runAttempts_fail_step fund f chunk r m (by omega)
      (hfail r le_rfl (by omega))]
    exact ih (r + 1) k m (by omega) hkm
      (fun a ha1 ha2 => hfail a (by omega) ha2) hsucc

theorem recordsOfChunks_congr (fund : Ticker → FundResult)
    (fetch1 fetch2 : Nat → Nat → FetchResult)
    (h : ∀ i c, chunkRecords fund fetch1 i c = chunkRecords fund fetch2 i c) :
    ∀ (cs : List (List Ticker)) (i : Nat),
      recordsOfChunks fund fetch1 i cs = recordsOfChunks fund fetch2 i cs := by
  intro cs
  induction cs with
  | nil => intro i; rfl
  | cons c cs ih =>
    intro i
    simp only [recordsOfChunks, h, ih]

/-- C8: a provider that fails (raises or returns an empty table) on the
first `k i < 2` attempts of each chunk `i` and then succeeds with table
`frm i` produces exactly the same `MatchRecord` list as a provider that
succeeds with `frm i` immediately, for every ticker list and batch size. -/
theorem retry_transparent (fund : Ticker → FundResult)
    (fetch1 fetch2 : Nat → Nat → FetchResult) (frm : Nat → Frame)
    (k : Nat → Nat) (hk : ∀ i, k i < 2)
    (hfail : ∀ i a, a < k i → attemptFails (fetch1 i a))
    (hsucc : ∀ i, fetch1 i (k i) = FetchResult.ok (frm i))
    (himm : ∀ i a, fetch2 i a = FetchResult.ok (frm i))
    (hne : ∀ i, (frm i).empty = false)
    (tickers : List Ticker) (batch_size : Nat) :
    screen_hk_stocks_batched fund fetch1 tickers batch_size =
      screen_hk_stocks_batched fund fetch2 tickers batch_size := by
  unfold screen_hk_stocks_batched screenCancel
  rw [chunkLoop_no_cancel, chunkLoop_no_cancel]
  apply recordsOfChunks_congr
  intro i c
  unfold chunkRecords
  rw [runAttempts_eventual_success fund (fetch1 i) c (frm i) (hne i)
    (k i) 0 (k i) 2 (by omega) (hk i)
    (fun a _ ha => hfail i a ha) (hsucc i)]
  rw [runAttempts_eventual_success fund (fetch2 i) c (frm i) (hne i)
    0 0 0 2 (by omega) (by omega) (fun a _ ha => absurd ha (by omega))
    (himm i 0)]

/-- C9: the screener is deterministic — two runs whose providers give the
same answers on every chunk, attempt and symbol, on the same ticker list and
batch size, return equal (order-sensitive) `MatchRecord` lists. -/
theorem screen_deterministic (fund1 fund2 : Ticker → FundResult)
    (fetch1 fetch2 : Nat → Nat → FetchResult) (tickers : List Ticker)
    (batch_size : Nat) (hfund : ∀ s, fund1 s = fund2 s)
    (hfetch : ∀ i a, fetch1 i a = fetch2 i a) :
    screen_hk_stocks_batched fund1 fetch1 tickers batch_size =
      screen_hk_stocks_batched fund2 fetch2 tickers batch_size := by
  have h1 : fund1 = fund2 := funext hfund
  have h2 : fetch1 = fetch2 := funext fun i => funext fun a => hfetch i a
  rw [h1, h2]

/-- Witness for C9 at a concrete deterministic provider and ticker list. -/
theorem screen_deterministic_witness :
    (∀ s : Ticker, (fun _ => FundResult.ok (some 20)) s
        = (fun _ => FundResult.ok (some 20)) s) ∧
    (∀ i a : Nat, (fun _ _ => FetchResult.err) i a
        = (fun _ _ => FetchResult.err) i a) ∧
    screen_hk_stocks_batched (fun _ => FundResult.ok (some 20))
        (fun _ _ => FetchResult.err) ["0001.HK", "0002.HK"] 1 =
      screen_hk_stocks_batched (fun _ => FundResult.ok (some 20))
        (fun _ _ => FetchResult.err) ["0001.HK", "0002.HK"] 1 :=
  ⟨fun _ => rfl, fun _ _ => rfl,
    screen_deterministic _ _ _ _ ["0001.HK", "0002.HK"] 1
      (fun _ => rfl) (fun _ _ => rfl)⟩

/-! ## Per-symbol processing -/

theorem firstClose_eq (bars : List Bar) (h : bars ≠ []) :
    (bars.head?).map Bar.close = some (firstClose bars) := by
  cases bars with
  | nil => exact absurd rfl h
  | cons b bs => rfl

theorem lastClose_eq (bars : List Bar) (h : bars ≠ []) :
    (bars.getLast?).map Bar.close = some (lastClose bars) := by
  unfold lastClose
  rw [List.getLast?_eq_getLast bars h]
  rfl

/-- Characterization of one iteration of the per-symbol loop: it appends a
row exactly when the window extracts, has at least 5 bars, the technical
criteria pass and `check_fundamentals` passes, and then the row is the one
built on `main.py` lines 138-156. -/
theorem processSymbol_eq_some_iff (fund : Ticker → FundResult)
    (chunkLen : Nat) (data : Frame) (symbol : Ticker) (r : MatchRecord) :
    processSymbol fund chunkLen data symbol = some r ↔
      ∃ bars, extractWindow chunkLen data symbol = some bars ∧
        bars.isEmpty = false ∧ 5 ≤ bars.length ∧
        passes_criteria (maxHigh bars)
          (((lastClose bars - firstClose bars) / firstClose bars) * 100)
          = true ∧
        (check_fundamentals fund symbol).1 = true ∧
        r = { ticker := symbol
              currentPrice := round2 (lastClose bars)
              maxPrice1mo := round2 (maxHigh bars)
              minPrice1mo := round2 (minLow bars)
              changePct1mo :=
                ((lastClose bars - firstClose bars) / firstClose bars) * 100
              peRatio := (check_fundamentals fund symbol).2
              hasOptions := "Yes"
              monthly := monthlyStats bars } := by
  unfold processSymbol
  cases hw : extractWindow chunkLen data symbol with
  | none => simp
  | some bars =>
    simp only [Option.some.injEq]
    constructor
    · intro h
      split at h
      · exact absurd h (by simp)
      · next hguard =>
        split at h
        · next hpass =>
          split at h
          · next pe_val hcf =>
            simp only [Bool.or_eq_true, decide_eq_true_eq, not_or,
              Bool.not_eq_true] at hguard
            refine ⟨bars, rfl, hguard.1, by omega, hpass, ?_, ?_⟩
            · rw [hcf]
            · rw [hcf]
              exact (Option.some.inj h).symm
          · next hcf => exact absurd h (by simp)
        · next hpass => exact absurd h (by simp)
    · rintro ⟨bars', hw', hne, hlen, hp, hcf, hr⟩
      obtain rfl : bars' = bars := hw'.symm
      have hguard : (bars'.isEmpty || decide (bars'.length < 5)) = false := by
        simp [hne]
        omega
      rw [if_neg (by rw [hguard]; exact Bool.false_ne_true)]
      rw [if_pos hp]
      rcases hcfv : check_fundamentals fund symbol with ⟨pass, v⟩
      rw [hcfv] at hcf
      simp only at hcf
      subst hcf
      rw [hcfv] at hr
      simp only at hr
      rw [hr]

/-- C3: a ticker that is absent from a successful batch result, or whose
extracted window has fewer than 5 valid (non-missing) bars, is skipped by
the per-symbol loop of `main.py` lines 100-110 — it never produces a
`MatchRecord` (the loop `continue`s, no error is raised: `processSymbol` is
total and returns `none`). -/
theorem insufficient_window_skipped (fund : Ticker → FundResult)
    (chunkLen : Nat) (data : Frame) (symbol : Ticker)
    (h : extractWindow chunkLen data symbol = none ∨
      ∃ bars, extractWindow chunkLen data symbol = some bars ∧
        bars.length < 5) :
    processSymbol fund chunkLen data symbol = none := by
  unfold processSymbol
  rcases h with h | ⟨bars, hb, hlen⟩
  · rw [h]
  · rw [hb]
    simp [hlen]

/-- Witness for C3: a symbol missing from the frame of a two-ticker chunk
is skipped. -/
theorem insufficient_window_skipped_witness :
    (extractWindow 2 (Frame.mk false [] []) "0001.HK" = none ∨
      ∃ bars, extractWindow 2 (Frame.mk false [] []) "0001.HK" = some bars ∧
        bars.length < 5) ∧
    processSymbol (fun _ => FundResult.err) 2 (Frame.mk false [] [])
      "0001.HK" = none :=
  ⟨Or.inl rfl,
    insufficient_window_skipped (fun _ => FundResult.err) 2
      (Frame.mk false [] []) "0001.HK" (Or.inl rfl)⟩

/-- C4: whenever the per-symbol loop produces a row, its `Change % (1mo)`
field equals `(last close − first close) / first close × 100` computed from
the symbol's extracted window (`main.py` lines 113-118). -/
theorem pct_change_formula (fund : Ticker → FundResult) (chunkLen : Nat)
    (data : Frame) (symbol : Ticker) (r : MatchRecord)
    (h : processSymbol fund chunkLen data symbol = some r) :
    ∃ bars c0 c1,
      extractWindow chunkLen data symbol = some bars ∧ 5 ≤ bars.length ∧
      (bars.head?).map Bar.close = some c0 ∧
      (bars.getLast?).map Bar.close = some c1 ∧
      r.changePct1mo = ((c1 - c0) / c0) * 100 := by
  rcases (processSymbol_eq_some_iff fund chunkLen data symbol r).mp h with
    ⟨bars, hw, hne, hlen, hp, hcf, hr⟩
  have hnil : bars ≠ [] := by
    intro hb
    rw [hb] at hlen
    simp at hlen
  refine ⟨bars, firstClose bars, lastClose bars, hw, hlen,
    firstClose_eq bars hnil, lastClose_eq bars hnil, ?_⟩
  rw [hr]

/-! ## Concrete fixtures used by the witnesses -/

/-- Five daily bars, closes 100 → 115 (a +15% month), highs 120, lows 90,
all in period 2024-01. -/
def barsW : List Bar :=
  [⟨100, 120, 90, 202401⟩, ⟨100, 120, 90, 202401⟩, ⟨100, 120, 90, 202401⟩,
    ⟨100, 120, 90, 202401⟩, ⟨115, 120, 90, 202401⟩]

/-- A non-empty downloaded table holding `barsW` for ticker 0001.HK. -/
def frameW : Frame := ⟨false, [("0001.HK", barsW)], barsW⟩

/-- A fundamentals provider answering `trailingPE = 20` for every symbol. -/
def fundW : Ticker → FundResult := fun _ => FundResult.ok (some 20)

/-- The row the screener builds from `barsW` and `fundW`. -/
def recW : MatchRecord :=
  ⟨"0001.HK", 115, 120, 90, 15, some 20, "Yes", [(202401, 120, 90)]⟩

theorem firstClose_barsW : firstClose barsW = 100 := rfl

theorem lastClose_barsW : lastClose barsW = 115 := rfl

theorem maxHigh_barsW : maxHigh barsW = 120 := by
  simp [maxHigh, barsW]

theorem minLow_barsW : minLow barsW = 90 := by
  simp [minLow, barsW]

theorem pct_barsW :
    ((lastClose barsW - firstClose barsW) / firstClose barsW) * 100 = 15 := by
  rw [lastClose_barsW, firstClose_barsW]
  norm_num

theorem passes_criteria_barsW :
    passes_criteria (maxHigh barsW)
      (((lastClose barsW - firstClose barsW) / firstClose barsW) * 100)
      = true := by
  rw [maxHigh_barsW, pct_barsW]
  norm_num [passes_criteria]

theorem round2_115 : round2 115 = 115 := by
  rw [round2, round_eq]
  norm_num

theorem round2_120 : round2 120 = 120 := by
  rw [round2, round_eq]
  norm_num

theorem round2_90 : round2 90 = 90 := by
  rw [round2, round_eq]
  norm_num

theorem round2_20 : round2 20 = 20 := by
  rw [round2, round_eq]
  norm_num

theorem check_fundamentals_fundW (s : Ticker) :
    check_fundamentals fundW s = (true, some 20) := by
  rw [check_fundamentals]
  show (if (20 : ℚ) ≠ 0 ∧ 15 ≤ (20 : ℚ) ∧ (20 : ℚ) ≤ 50 then
    (true, some (round2 20)) else (false, none)) = (true, some 20)
  rw [if_pos (by norm_num), round2_20]

theorem monthlyStats_barsW : monthlyStats barsW = [(202401, 120, 90)] := by
  rw [monthlyStats]
  have hdedup : ((barsW.map (fun b => b.yearMonth)).dedup) = [202401] := by
    simp [barsW]
  rw [hdedup]
  have hfilter : barsW.filter (fun b => b.yearMonth == 202401) = barsW := by
    simp [barsW]
  simp only [sortDesc, List.foldr, insertDesc, List.map, List.take]
  rw [hfilter, maxHigh_barsW, minLow_barsW, round2_120, round2_90]

theorem processSymbol_recW :
    processSymbol fundW 1 frameW "0001.HK" = some recW := by
  rw [processSymbol_eq_some_iff]
  refine ⟨barsW, rfl, rfl, by norm_num [barsW], passes_criteria_barsW, ?_, ?_⟩
  · rw [check_fundamentals_fundW]
  · rw [check_fundamentals_fundW, pct_barsW, lastClose_barsW, maxHigh_barsW,
      minLow_barsW, round2_115, round2_120, round2_90, monthlyStats_barsW]
    rfl

/-- Witness for C4 at the concrete fixtures: the produced row's change
field is `((115 − 100) / 100) × 100`. -/
theorem pct_change_formula_witness :
    processSymbol fundW 1 frameW "0001.HK" = some recW ∧
    ∃ bars c0 c1,
      extractWindow 1 frameW "0001.HK" = some bars ∧ 5 ≤ bars.length ∧
      (bars.head?).map Bar.close = some c0 ∧
      (bars.getLast?).map Bar.close = some c1 ∧
      recW.changePct1mo = ((c1 - c0) / c0) * 100 :=
  ⟨processSymbol_recW,
    pct_change_formula fundW 1 frameW "0001.HK" recW processSymbol_recW⟩

/-- C5: the technical filter of `main.py` line 123 passes exactly when the
conjunction of the configured thresholds of `mainCriteria` holds — price
floor 10 on the window maximum and absolute change within [15, 25] — with
the absent drawdown threshold always satisfied (any `drawdown` value). -/
theorem criteria_conjunction (max_price pct_change drawdown : ℚ) :
    passes_criteria max_price pct_change = true ↔
      criteriaSatisfied mainCriteria max_price pct_change drawdown := by
  unfold passes_criteria criteriaSatisfied mainCriteria
  simp only [Bool.and_eq_true, decide_eq_true_eq, Option.mem_def,
    Option.some.injEq, forall_eq', Option.not_mem_none, false_implies,
    implies_true, and_true]
  tauto

/-- C6: for a ticker whose window extracted with at least 5 bars and whose
technical filter passes, a `MatchRecord` is produced if and only if
`check_fundamentals` passes (`main.py` lines 125-158); a fundamentals
lookup that raises, or that returns no usable ratio, yields the verdict
`(False, None)` — treated as "does not pass", non-fatal. -/
theorem secondary_check_gates (fund : Ticker → FundResult) (chunkLen : Nat)
    (data : Frame) (symbol : Ticker) (bars : List Bar)
    (hw : extractWindow chunkLen data symbol = some bars)
    (hlen : 5 ≤ bars.length)
    (hp : passes_criteria (maxHigh bars)
        (((lastClose bars - firstClose bars) / firstClose bars) * 100)
        = true) :
    ((∃ r, processSymbol fund chunkLen data symbol = some r) ↔
      (check_fundamentals fund symbol).1 = true) ∧
    (fund symbol = FundResult.err →
      check_fundamentals fund symbol = (false, none)) ∧
    (fund symbol = FundResult.ok none →
      check_fundamentals fund symbol = (false, none)) := by
  have hne : bars.isEmpty = false := by
    cases bars with
    | nil => simp at hlen
    | cons b bs => rfl
  refine ⟨?_, ?_, ?_⟩
  · constructor
    · rintro ⟨r, hr⟩
      rcases (processSymbol_eq_some_iff fund chunkLen data symbol r).mp hr
        with ⟨bars', _, _, _, _, hcf, _⟩
      exact hcf
    · intro hcf
      exact ⟨_, (processSymbol_eq_some_iff fund chunkLen data symbol _).mpr
        ⟨bars, hw, hne, hlen, hp, hcf, rfl⟩⟩
  · intro h
    rw [check_fundamentals, h]
  · intro h
    rw [check_fundamentals, h]

/-- Witness for C6 at the concrete fixtures: the hypotheses hold for
`barsW`, and the produced record corresponds to the passing P/E check. -/
theorem secondary_check_gates_witness :
    (extractWindow 1 frameW "0001.HK" = some barsW ∧ 5 ≤ barsW.length ∧
      passes_criteria (maxHigh barsW)
        (((lastClose barsW - firstClose barsW) / firstClose barsW) * 100)
        = true) ∧
    ((∃ r, processSymbol fundW 1 frameW "0001.HK" = some r) ↔
      (check_fundamentals fundW "0001.HK").1 = true) ∧
    (fundW "0001.HK" = FundResult.err →
      check_fundamentals fundW "0001.HK" = (false, none)) ∧
    (fundW "0001.HK" = FundResult.ok none →
      check_fundamentals fundW "0001.HK" = (false, none)) :=
  ⟨⟨rfl, by norm_num [barsW], passes_criteria_barsW⟩,
    secondary_check_gates fundW 1 frameW "0001.HK" barsW rfl
      (by norm_num [barsW]) passes_criteria_barsW⟩

/-! ## Output-row invariants -/

theorem runAttempts_records_mem (fund : Ticker → FundResult)
    (f : Nat → FetchResult) (chunk : List Ticker) :
    ∀ (fuel retries max_retries : Nat), max_retries ≤ retries + fuel →
      ∀ r, r ∈ (runAttempts fund f chunk retries max_retries).1 →
        ∃ data symbol, symbol ∈ chunk ∧
          processSymbol fund chunk.length data symbol = some r := by
  intro fuel
  induction fuel with
  | zero =>
    intro retries max_retries hm r hr
    rw [runAttempts_done fund f chunk retries max_retries (by omega)] at hr
    simp at hr
  | succ fuel ih =>
    intro retries max_retries hm r hr
    by_cases h : retries < max_retries
    · cases hfr : f retries with
      | err =>
        rw [runAttempts_fail_step fund f chunk retries max_retries h
          (by rw [hfr]; trivial)] at hr
        exact ih (retries + 1) max_retries (by omega) r hr
      | ok data =>
        cases hemp : data.empty with
        | true =>
          rw [runAttempts_fail_step fund f chunk retries max_retries h
            (by rw [hfr]; exact hemp)] at hr
          exact ih (retries + 1) max_retries (by omega) r hr
        | false =>
          rw [runAttempts_success fund f chunk retries max_retries data h
            hfr hemp] at hr
          rcases List.mem_filterMap.mp hr with ⟨symbol, hs, hps⟩
          exact ⟨data, symbol, hs, hps⟩
    · rw [runAttempts_done fund f chunk retries max_retries h] at hr
      simp at hr

theorem recordsOfChunks_mem (fund : Ticker → FundResult)
    (fetch : Nat → Nat → FetchResult) :
    ∀ (cs : List (List Ticker)) (i : Nat) (r : MatchRecord),
      r ∈ recordsOfChunks fund fetch i cs →
      ∃ (data : Frame) (chunk : List Ticker) (symbol : Ticker), symbol ∈ chunk ∧
        processSymbol fund chunk.length data symbol = some r := by
  intro cs
  induction cs with
  | nil =>
    intro i r hr
    simp [recordsOfChunks] at hr
  | cons c cs ih =>
    intro i r hr
    rcases List.mem_append.mp hr with hr | hr
    · rcases runAttempts_records_mem fund (fetch i) c 2 0 2 (by omega) r hr
        with ⟨data, symbol, hs, hps⟩
      exact ⟨data, c, symbol, hs, hps⟩
    · exact ih (i + 1) r hr

/-- Every record of a full run arises from `processSymbol` succeeding on
some symbol of some chunk against some successfully fetched table. -/
theorem screen_records_mem (fund : Ticker → FundResult)
    (fetch : Nat → Nat → FetchResult) (tickers : List Ticker)
    (batch_size : Nat) (r : MatchRecord)
    (hr : r ∈ screen_hk_stocks_batched fund fetch tickers batch_size) :
    ∃ (data : Frame) (chunk : List Ticker) (symbol : Ticker), symbol ∈ chunk ∧
      processSymbol fund chunk.length data symbol = some r := by
  unfold screen_hk_stocks_batched screenCancel at hr
  rw [chunkLoop_no_cancel] at hr
  exact recordsOfChunks_mem fund fetch _ 0 r hr

theorem check_fundamentals_pass (fund : Ticker → FundResult)
    (symbol : Ticker) (v : Option ℚ)
    (h : check_fundamentals fund symbol = (true, v)) :
    ∃ pe, fund symbol = FundResult.ok (some pe) ∧ pe ≠ 0 ∧
      15 ≤ pe ∧ pe ≤ 50 ∧ v = some (round2 pe) := by
  unfold check_fundamentals at h
  cases hf : fund symbol with
  | err => rw [hf] at h; exact absurd h (by simp)
  | ok pe? =>
    rw [hf] at h
    cases pe? with
    | none => exact absurd h (by simp)
    | some pe =>
      simp only at h
      by_cases hc : pe ≠ 0 ∧ 15 ≤ pe ∧ pe ≤ 50
      · rw [if_pos hc] at h
        have hv := (Prod.mk.injEq _ _ _ _ ▸ h)
        exact ⟨pe, rfl, hc.1, hc.2.1, hc.2.2,
          (Prod.mk.inj h).2.symm⟩
      · rw [if_neg hc] at h
        exact absurd (Prod.mk.inj h).1 (by simp)

theorem testscan_check_pass (fund : Ticker → Option TickerInfo)
    (symbol : Ticker) (pe_min pe_max : ℚ) (v : Option ℚ)
    (h : TestScan.check_fundamentals fund symbol pe_min pe_max = (true, v)) :
    ∃ info pe, fund symbol = some info ∧ info.optionsCount ≠ 0 ∧
      info.trailingPE = some pe ∧ pe_min ≤ pe ∧ pe ≤ pe_max ∧
      v = some (round2 pe) := by
  unfold TestScan.check_fundamentals at h
  cases hf : fund symbol with
  | none => rw [hf] at h; exact absurd h (by simp)
  | some info =>
    rw [hf] at h
    simp only at h
    by_cases hopt : info.optionsCount = 0
    · rw [if_pos hopt] at h
      exact absurd (Prod.mk.inj h).1 (by simp)
    · rw [if_neg hopt] at h
      cases hpe : info.trailingPE with
      | none => rw [hpe] at h; exact absurd h (by simp)
      | some pe =>
        rw [hpe] at h
        simp only at h
        by_cases hc : pe_min ≤ pe ∧ pe ≤ pe_max
        · rw [if_pos hc] at h
          exact ⟨info, pe, rfl, hopt, hpe, hc.1, hc.2,
            (Prod.mk.inj h).2.symm⟩
        · rw [if_neg hc] at h
          exact absurd (Prod.mk.inj h).1 (by simp)

/-- C10: every row the screener appends carries a P/E value inside the
configured bounds 15..50 (inclusive, stable under two-decimal rounding) and
a `Has Options` field equal to `"Yes"`; `check_fundamentals` of `main.py`
passes only when the provider returned a trailing P/E inside [15, 50]
(returning it rounded to two decimals), a raised exception yields the
non-passing `(False, None)` rather than propagating, and the `test.py`
variant (at its configured bounds 15, 50) additionally requires a non-empty
options chain. -/
theorem record_invariants (fund : Ticker → FundResult)
    (fetch : Nat → Nat → FetchResult) (tickers : List Ticker)
    (batch_size : Nat) (r : MatchRecord)
    (hr : r ∈ screen_hk_stocks_batched fund fetch tickers batch_size) :
    (∃ p, r.peRatio = some p ∧ 15 ≤ p ∧ p ≤ 50 ∧ round2 p = p) ∧
    r.hasOptions = "Yes" ∧
    (∀ (g : Ticker → FundResult) (s : Ticker) (v : Option ℚ),
      check_fundamentals g s = (true, v) →
      ∃ pe, g s = FundResult.ok (some pe) ∧ 15 ≤ pe ∧ pe ≤ 50 ∧
        v = some (round2 pe)) ∧
    (∀ (g : Ticker → FundResult) (s : Ticker),
      g s = FundResult.err → check_fundamentals g s = (false, none)) ∧
    (∀ (g : Ticker → Option TickerInfo) (s : Ticker) (v : Option ℚ),
      TestScan.check_fundamentals g s 15 50 = (true, v) →
      ∃ info pe, g s = some info ∧ info.optionsCount ≠ 0 ∧
        info.trailingPE = some pe ∧ 15 ≤ pe ∧ pe ≤ 50 ∧
        v = some (round2 pe)) := by
  rcases screen_records_mem fund fetch tickers batch_size r hr with
    ⟨data, chunk, symbol, hs, hps⟩
  rcases (processSymbol_eq_some_iff fund chunk.length data symbol r).mp hps
    with ⟨bars, _, _, _, _, hcf, hr'⟩
  rcases hcf2 : check_fundamentals fund symbol with ⟨pass, v⟩
  rw [hcf2] at hcf
  simp only at hcf
  subst hcf
  rcases check_fundamentals_pass fund symbol v hcf2 with
    ⟨pe, _, _, h15, h50, hv⟩
  have hb := round2_le_bounds h15 h50
  refine ⟨⟨round2 pe, ?_, hb.1, hb.2, round2_idem pe⟩, ?_, ?_, ?_, ?_⟩
  · rw [hr']
    simp only
    rw [hcf2, hv]
  · rw [hr']
  · intro g s v' h
    rcases check_fundamentals_pass g s v' h with ⟨pe', hg, _, h1, h2, hv'⟩
    exact ⟨pe', hg, h1, h2, hv'⟩
  · intro g s h
    rw [check_fundamentals, h]
  · intro g s v' h
    exact testscan_check_pass g s 15 50 v' h

/-- Witness for C10: a concrete full run producing the row `recW`, with
P/E 20 ∈ [15, 50] and `Has Options = "Yes"`. -/
theorem record_invariants_witness :
    recW ∈ screen_hk_stocks_batched fundW (fun _ _ => FetchResult.ok frameW)
        ["0001.HK"] 50 ∧
    ((∃ p, recW.peRatio = some p ∧ 15 ≤ p ∧ p ≤ 50 ∧ round2 p = p) ∧
      recW.hasOptions = "Yes" ∧
      (∀ (g : Ticker → FundResult) (s : Ticker) (v : Option ℚ),
        check_fundamentals g s = (true, v) →
        ∃ pe, g s = FundResult.ok (some pe) ∧ 15 ≤ pe ∧ pe ≤ 50 ∧
          v = some (round2 pe)) ∧
      (∀ (g : Ticker → FundResult) (s : Ticker),
        g s = FundResult.err → check_fundamentals g s = (false, none)) ∧
      (∀ (g : Ticker → Option TickerInfo) (s : Ticker) (v : Option ℚ),
        TestScan.check_fundamentals g s 15 50 = (true, v) →
        ∃ info pe, g s = some info ∧ info.optionsCount ≠ 0 ∧
          info.trailingPE = some pe ∧ 15 ≤ pe ∧ pe ≤ 50 ∧
          v = some (round2 pe))) := by
  have hrun : runAttempts fundW (fun _ => FetchResult.ok frameW)
      ["0001.HK"] 0 2 = ([recW], [Event.fetchAttempt 0]) := by
    rw [runAttempts_success fundW _ ["0001.HK"] 0 2 frameW (by omega) rfl rfl]
    simp [List.filterMap_cons, processSymbol_recW]
  have hchunks : chunksOf 50 (["0001.HK"] : List Ticker) = [["0001.HK"]] := by
    simp [chunksOf]
  have hmem : recW ∈ screen_hk_stocks_batched fundW
      (fun _ _ => FetchResult.ok frameW) ["0001.HK"] 50 := by
    unfold screen_hk_stocks_batched screenCancel
    rw [hchunks]
    simp [chunkLoop, hrun]
  exact ⟨hmem, record_invariants fundW (fun _ _ => FetchResult.ok frameW)
    ["0001.HK"] 50 recW hmem⟩

/-- Witness for C5 at concrete metrics: max price 120, change +15%,
drawdown 0. -/
theorem criteria_conjunction_witness :
    passes_criteria 120 15 = true ↔ criteriaSatisfied mainCriteria 120 15 0 :=
  criteria_conjunction 120 15 0

/-- Witness for C8: a provider failing only on attempt 0 of every chunk and
then serving `frameW` yields the same records as one serving `frameW` at
once. -/
theorem retry_transparent_witness :
    (∀ a : Nat, a < 1 →
      attemptFails ((fun (_ a : Nat) =>
        if a < 1 then FetchResult.err else FetchResult.ok frameW) 0 a)) ∧
    ((fun (_ a : Nat) =>
        if a < 1 then FetchResult.err else FetchResult.ok frameW) 0 1 =
      FetchResult.ok frameW) ∧
    frameW.empty = false ∧
    screen_hk_stocks_batched fundW
        (fun _ a => if a < 1 then FetchResult.err else FetchResult.ok frameW)
        ["0001.HK"] 50 =
      screen_hk_stocks_batched fundW (fun _ _ => FetchResult.ok frameW)
        ["0001.HK"] 50 := by
  refine ⟨?_, rfl, rfl, ?_⟩
  · intro a ha
    simp only [if_pos ha]
    trivial
  · exact retry_transparent fundW
      (fun _ a => if a < 1 then FetchResult.err else FetchResult.ok frameW)
      (fun _ _ => FetchResult.ok frameW) (fun _ => frameW) (fun _ => 1)
      (fun _ => Nat.one_lt_two)
      (fun i a ha => by simp only [if_pos ha]; trivial)
      (fun i => rfl) (fun i a => rfl) (fun i => rfl) ["0001.HK"] 50
